import Mathlib

/-!
# BookVerse (`script.js`): query engine, favorites store, reveal timers

A shallow embedding of the browsing widget of `src/script.js`.

* JavaScript strings are modelled by `String` (book fields, input values) and,
  where the code inspects characters, by `List Char`.
* `String.prototype.toLowerCase` depends on the Unicode tables of the runtime;
  it is a parameter `toLowerCase : List Char → List Char` of the query
  functions.  `asciiToLowerCase` is one concrete instance.
* The read `books[genre]` follows the prototype chain: on a property name of
  `Object.prototype` the value has no `slice`, and `filterAndSearch` throws a
  `TypeError` (`Except Thrown`).
* The DOM is reduced to the fields the handlers write: the grid of cards, the
  count and empty indicators, the status line, the pending timers and the
  `'bookhub:favs'` slot of `localStorage`.
* `JSON.parse` is a recursive-descent parser of the JSON grammar with fuel
  (`JSON.parse_ne_outOfFuel`: the fuel is never used up); `JSON.stringify` is
  written out for arrays of book objects, the only values the code serialises.
* Time is a counter of milliseconds; pending `setTimeout` callbacks fire in
  order of due time, then of creation.
-/

namespace BookVerse

/-! ## Data model -/

/-- A book record of the catalog: `{ title, author, cover, summary }`.  `summary` is
the only field the code treats as optional (`book.summary || ...`). -/
structure Book where
  title : String
  author : String
  cover : String
  summary : Option String
deriving DecidableEq, Repr

/-- The constant `books` (lines 10-31): genre keys in insertion order, each with its
ordered list of books. -/
def books : List (String × List Book) :=
  [ ("fantasy",
      [ ⟨"The Hobbit", "J.R.R. Tolkien",
          "https://covers.openlibrary.org/b/id/6979861-L.jpg",
          some "An epic quest of a hobbit and company."⟩,
        ⟨"Name of the Wind", "Patrick Rothfuss",
          "https://covers.openlibrary.org/b/id/8231851-L.jpg",
          some "A gifted young man's journey to legend."⟩ ]),
    ("romance",
      [ ⟨"Pride & Prejudice", "Jane Austen",
          "https://covers.openlibrary.org/b/id/8226191-L.jpg",
          some "Classic romance and social wit."⟩,
        ⟨"The Fault in Our Stars", "John Green",
          "https://covers.openlibrary.org/b/id/7279251-L.jpg",
          some "A tender, witty love story."⟩ ]),
    ("mystery",
      [ ⟨"Gone Girl", "Gillian Flynn",
          "https://covers.openlibrary.org/b/id/8231856-L.jpg",
          some "Twisty psychological thriller."⟩,
        ⟨"The Hound of the Baskervilles", "Arthur Conan Doyle",
          "https://covers.openlibrary.org/b/id/8108691-L.jpg",
          some "A gothic Sherlock Holmes mystery."⟩ ]),
    ("sci-fi",
      [ ⟨"Dune", "Frank Herbert",
          "https://covers.openlibrary.org/b/id/8101348-L.jpg",
          some "Desert planet, politics and prophecy."⟩,
        ⟨"The Martian", "Andy Weir",
          "https://covers.openlibrary.org/b/id/8373590-L.jpg",
          some "A stranded astronaut's fight to survive."⟩ ]),
    ("non-fiction",
      [ ⟨"Sapiens", "Yuval Noah Harari",
          "https://covers.openlibrary.org/b/id/8165261-L.jpg",
          some "A brief history of humankind."⟩,
        ⟨"Atomic Habits", "James Clear",
          "https://covers.openlibrary.org/b/id/9251976-L.jpg",
          some "Tiny changes, remarkable results."⟩ ]) ]

/-- `flattenDB()`: `Object.values(books).flat()`, the genres' lists concatenated in key
order. -/
def flattenDB : List Book :=
  (books.map Prod.snd).flatten

/-- The property names every object inherits from `Object.prototype` (ECMAScript,
with the legacy accessors of Annex B).  Each holds a function, or for `__proto__` the
prototype object itself; none of these values has a method `slice`. -/
def objectPrototypeKeys : List String :=
  ["constructor", "hasOwnProperty", "isPrototypeOf", "propertyIsEnumerable",
   "toLocaleString", "toString", "valueOf", "__proto__", "__defineGetter__",
   "__defineSetter__", "__lookupGetter__", "__lookupSetter__"]

/-- What the property read `books[genre]` finds. -/
inductive PropertyRead where
  /-- An own key of `books`: the list stored under it. -/
  | own (list : List Book)
  /-- A property inherited from `Object.prototype`: a truthy value that is not an
  array. -/
  | inherited
  /-- No such property: `undefined`. -/
  | undefined
deriving DecidableEq, Repr

/-- The property read `books[genre]`: own keys first, then the prototype chain. -/
def booksAt (genre : String) : PropertyRead :=
  match books.find? (fun kv => kv.1 == genre) with
  | some kv => .own kv.2
  | none => if genre ∈ objectPrototypeKeys then .inherited else .undefined

/-- An exception thrown by the script. -/
inductive Thrown where
  /-- `TypeError`: a value that is not a function was called. -/
  | typeError
deriving DecidableEq, Repr

/-! ## String helpers of the runtime -/

/-- The code points `String.prototype.trim` strips: ECMAScript `WhiteSpace` and
`LineTerminator`. -/
def isTrimChar (c : Char) : Bool :=
  let n := c.toNat
  n == 0x09 || n == 0x0A || n == 0x0B || n == 0x0C || n == 0x0D || n == 0x20 ||
  n == 0xA0 || n == 0x1680 || (0x2000 ≤ n && n ≤ 0x200A) || n == 0x2028 ||
  n == 0x2029 || n == 0x202F || n == 0x205F || n == 0x3000 || n == 0xFEFF

/-- `s.trim()`: white space removed from both ends. -/
def trim (s : List Char) : List Char :=
  ((s.dropWhile isTrimChar).reverse.dropWhile isTrimChar).reverse

/-- `s.includes(t)`: `t` starts at some position of `s`. -/
def includes (s t : List Char) : Bool :=
  s.tails.any (fun u => t.isPrefixOf u)

/-- One instance of `toLowerCase`: the ASCII letters are folded, every other
character is kept. -/
def asciiToLowerCase (s : List Char) : List Char :=
  s.map Char.toLower

/-- The predicate both filters of `filterAndSearch` use:
`b.title.toLowerCase().includes(x) || b.author.toLowerCase().includes(x)`. -/
def bookMatches (toLowerCase : List Char → List Char) (x : List Char) (b : Book) : Bool :=
  includes (toLowerCase b.title.toList) x || includes (toLowerCase b.author.toList) x

/-! ## Presentation layer -/

/-- The part of a card built by `makeCard` that later code reads or writes: the book it
was built for and whether its favorite button carries the class `'active'`. -/
structure Card where
  book : Book
  favBtnActive : Bool
deriving DecidableEq, Repr

/-- A pending `setTimeout` callback of `renderResults`: the time it is due and the book
whose card it appends. -/
structure Timer where
  due : Nat
  book : Book
deriving DecidableEq, Repr

/-- The page state the search and render code touches. -/
structure Page where
  /-- Children of `bookGrid`, in document order. -/
  grid : List Card
  lastResults : List Book
  /-- Text of `countEl`. -/
  countText : String
  /-- Whether `emptyEl` is displayed (`'block'`) or not (`'none'`). -/
  emptyShown : Bool
  /-- Text of `statusEl`. -/
  statusText : String
  /-- Pending timers, in the order they were created. -/
  timers : List Timer
  /-- Current time in milliseconds. -/
  now : Nat
deriving DecidableEq, Repr

/-- `makeCard(book)` (lines 90-136): the button is created with `className = 'btn'`;
the favorites are not consulted. -/
def makeCard (book : Book) : Card :=
  { book := book, favBtnActive := false }

/-- `renderCount(n)`: the count with `book` or `books`. -/
def renderCount (n : Nat) (p : Page) : Page :=
  { p with countText := toString n ++ " book" ++ (if n ≠ 1 then "s" else "") }

/-- `showEmpty(show)`. -/
def showEmpty (b : Bool) (p : Page) : Page :=
  { p with emptyShown := b }

/-- The timers `list.forEach((b,i) => setTimeout(..., i * 90))` creates at time `now`,
for the indices from `i` on. -/
def scheduleFrom (now : Nat) : Nat → List Book → List Timer
  | _, [] => []
  | i, b :: bs => { due := now + i * 90, book := b } :: scheduleFrom now (i + 1) bs

/-- `renderResults(list)` (lines 138-153). -/
def renderResults (list : List Book) (p : Page) : Page :=
  let p := { p with grid := [], lastResults := list }
  if list.length = 0 then
    showEmpty true (renderCount 0 p)
  else
    let p := renderCount list.length (showEmpty false p)
    { p with timers := p.timers ++ scheduleFrom p.now 0 list }

/-- The pending timer that fires next, and the timers left: the earliest due time wins,
and among equal due times the timer created first. -/
def extractNext : List Timer → Option (Timer × List Timer)
  | [] => none
  | t :: ts =>
    match extractNext ts with
    | none => some (t, [])
    | some (m, rest) => if t.due ≤ m.due then some (t, ts) else some (m, t :: rest)

/-- One turn of the event loop: the next timer fires and its callback
`bookGrid.appendChild(makeCard(b))` runs; `none` when no timer is pending. -/
def fireNext (p : Page) : Option Page :=
  match extractNext p.timers with
  | none => none
  | some (t, rest) =>
    some { p with grid := p.grid ++ [makeCard t.book], timers := rest, now := max p.now t.due }

/-- At most `n` turns of the event loop. -/
def runTimers : Nat → Page → Page
  | 0, p => p
  | n + 1, p =>
    match fireNext p with
    | none => p
    | some p' => runTimers n p'

/-- The page once every pending timer has fired (a callback schedules no timer, so one
turn per pending timer is enough). -/
def settle (p : Page) : Page :=
  runTimers p.timers.length p

/-- At most `n` turns of the event loop, for the timers due at time `t` or earlier. -/
def runDue (t : Nat) : Nat → Page → Page
  | 0, p => p
  | n + 1, p =>
    match extractNext p.timers with
    | none => p
    | some (tm, _) =>
      if tm.due ≤ t then
        match fireNext p with
        | none => p
        | some p' => runDue t n p'
      else p

/-- The page at time `t`: the timers due by then have fired. -/
def advanceTo (t : Nat) (p : Page) : Page :=
  let p' := runDue t p.timers.length p
  { p' with now := max p'.now t }

/-! ## Query engine -/

/-- The base set of `filterAndSearch` (lines 178-182): `(books[genre] || []).slice()`
when `genre` is truthy, `flattenDB()` otherwise.  On an inherited property the value is
truthy, its `slice` is `undefined`, and the call throws a `TypeError`. -/
def baseSet (genre : String) : Except Thrown (List Book) :=
  if genre ≠ "" then
    match booksAt genre with
    | .own list => .ok list
    | .inherited => .error .typeError
    | .undefined => .ok []
  else .ok flattenDB

/-- The two filters of `filterAndSearch` (lines 183-193) on the base set `results`, from
the values of the local search box and of the global search box. -/
def filterResults (toLowerCase : List Char → List Char)
    (searchValue globalValue : String) (results : List Book) : List Book :=
  let q := toLowerCase (trim searchValue.toList)
  let results :=
    if trim globalValue.toList ≠ [] then
      let g := toLowerCase (trim globalValue.toList)
      results.filter (bookMatches toLowerCase g)
    else results
  if q ≠ [] then results.filter (bookMatches toLowerCase q) else results

/-- `filterAndSearch()` (lines 174-195), from the values of the genre select, the local
search box and the global search box: the base set is read (an exception there ends the
handler and leaves the page as it is), the status line is set, and the filtered list is
rendered. -/
def filterAndSearch (toLowerCase : List Char → List Char)
    (genre searchValue globalValue : String) (p : Page) : Except Thrown Page :=
  match baseSet genre with
  | .error e => .error e
  | .ok results =>
    let status :=
      if trim globalValue.toList ≠ [] then "Results for \"" ++ globalValue ++ "\"" else ""
    .ok (renderResults (filterResults toLowerCase searchValue globalValue results)
      { p with statusText := status })

/-- The page after `DOMContentLoaded`: `renderResults([])` on a blank page. -/
def initialPage : Page :=
  renderResults []
    { grid := [], lastResults := [], countText := "", emptyShown := false,
      statusText := "", timers := [], now := 0 }

/-! ## JSON of the runtime -/

/-- A value `JSON.parse` returns.  A number keeps its lexeme (its floating-point value
is not interpreted); an object keeps its members in source order. -/
inductive Json where
  | null
  | bool (b : Bool)
  | num (lexeme : List Char)
  | str (s : String)
  | arr (items : List Json)
  | obj (members : List (String × Json))

/-- Why a parse stopped: the `SyntaxError` that `JSON.parse` throws, or the recursion
budget of this model running out. -/
inductive ParseError where
  | syntaxError
  | outOfFuel
deriving DecidableEq, Repr

namespace JSON

/-- JSON white space: space, tab, line feed, carriage return. -/
def isWs (c : Char) : Bool :=
  c == ' ' || c == '\t' || c == '\n' || c == '\r'

/-- The input with leading JSON white space removed. -/
def skipWs (cs : List Char) : List Char :=
  cs.dropWhile isWs

/-- Lower-case hexadecimal digit of a number below 16. -/
def hexDigit (n : Nat) : Char :=
  if n < 10 then Char.ofNat (48 + n) else Char.ofNat (87 + n)

/-- Value of a hexadecimal digit, in either case. -/
def hexVal (c : Char) : Option Nat :=
  let n := c.toNat
  if 48 ≤ n ∧ n ≤ 57 then some (n - 48)
  else if 97 ≤ n ∧ n ≤ 102 then some (n - 87)
  else if 65 ≤ n ∧ n ≤ 70 then some (n - 55)
  else none

/-- Four hexadecimal digits and the input after them. -/
def parseHex4 : List Char → Option (Nat × List Char)
  | a :: b :: c :: d :: rest =>
    match hexVal a, hexVal b, hexVal c, hexVal d with
    | some x, some y, some z, some w => some (((x * 16 + y) * 16 + z) * 16 + w, rest)
    | _, _, _, _ => none
  | _ => none

/-- An escape `\uXXXX` of a low surrogate at the head of the input. -/
def lowSurrogateEscape : List Char → Option (Nat × List Char)
  | c :: e :: rest =>
    if c = '\\' ∧ e = 'u' then
      match parseHex4 rest with
      | some (w, rest') => if 0xDC00 ≤ w ∧ w ≤ 0xDFFF then some (w, rest') else none
      | none => none
    else none
  | _ => none

/-- The character of a one-letter escape. -/
def simpleEscape (e : Char) : Option Char :=
  if e = '"' then some '"'
  else if e = '\\' then some '\\'
  else if e = '/' then some '/'
  else if e = 'b' then some (Char.ofNat 8)
  else if e = 'f' then some (Char.ofNat 12)
  else if e = 'n' then some '\n'
  else if e = 'r' then some '\r'
  else if e = 't' then some '\t'
  else none

/-- One more character in front of a parsed string. -/
def prepend (c : Char) :
    Except ParseError (List Char × List Char) → Except ParseError (List Char × List Char)
  | .ok (s, rest) => .ok (c :: s, rest)
  | .error e => .error e

/-- The characters of a JSON string up to its closing quote (the opening quote is
already consumed) and the input after it.  A surrogate pair of two `\u` escapes is one
character; a lone surrogate escape, which `Char` cannot hold, is read as U+FFFD. -/
def parseStringBody : Nat → List Char → Except ParseError (List Char × List Char)
  | 0, _ => .error .outOfFuel
  | _ + 1, [] => .error .syntaxError
  | fuel + 1, c :: cs =>
    if c = '"' then .ok ([], cs)
    else if c = '\\' then
      match cs with
      | [] => .error .syntaxError
      | e :: cs1 =>
        if e = 'u' then
          match parseHex4 cs1 with
          | none => .error .syntaxError
          | some (v, cs2) =>
            if 0xD800 ≤ v ∧ v ≤ 0xDBFF then
              match lowSurrogateEscape cs2 with
              | some (w, cs3) =>
                prepend (Char.ofNat (0x10000 + (v - 0xD800) * 0x400 + (w - 0xDC00)))
                  (parseStringBody fuel cs3)
              | none => prepend (Char.ofNat 0xFFFD) (parseStringBody fuel cs2)
            else if 0xDC00 ≤ v ∧ v ≤ 0xDFFF then
              prepend (Char.ofNat 0xFFFD) (parseStringBody fuel cs2)
            else prepend (Char.ofNat v) (parseStringBody fuel cs2)
        else
          match simpleEscape e with
          | some ch => prepend ch (parseStringBody fuel cs1)
          | none => .error .syntaxError
    else if c.toNat < 0x20 then .error .syntaxError
    else prepend c (parseStringBody fuel cs)

/-- A JSON string after its opening quote. -/
def parseString (cs : List Char) : Except ParseError (String × List Char) :=
  match parseStringBody (cs.length + 1) cs with
  | .ok (s, rest) => .ok (String.mk s, rest)
  | .error e => .error e

/-- Decimal digits at the head of the input, and the input after them. -/
def takeDigits (cs : List Char) : List Char × List Char :=
  cs.span Char.isDigit

/-- The optional fraction `.digits` of a number. -/
def parseFrac (cs : List Char) : Option (List Char × List Char) :=
  match cs with
  | c :: rest =>
    if c = '.' then
      match takeDigits rest with
      | ([], _) => none
      | (ds, rest') => some (c :: ds, rest')
    else some ([], cs)
  | [] => some ([], cs)

/-- The optional exponent `e[+-]digits` of a number. -/
def parseExp (cs : List Char) : Option (List Char × List Char) :=
  match cs with
  | c :: rest =>
    if c = 'e' ∨ c = 'E' then
      let (sign, rest1) :=
        match rest with
        | s :: rest1 => if s = '+' ∨ s = '-' then ([s], rest1) else ([], rest)
        | [] => ([], rest)
      match takeDigits rest1 with
      | ([], _) => none
      | (ds, rest2) => some (c :: sign ++ ds, rest2)
    else some ([], cs)
  | [] => some ([], cs)

/-- The integer part of a number: `0`, or a non-zero digit and further digits. -/
def parseInt (cs : List Char) : Option (List Char × List Char) :=
  match cs with
  | c :: rest =>
    if c = '0' then some ([c], rest)
    else if c.isDigit then
      let (ds, rest') := takeDigits rest
      some (c :: ds, rest')
    else none
  | [] => none

/-- A JSON number: its lexeme and the input after it. -/
def parseNumber (cs : List Char) : Option (List Char × List Char) :=
  let (sign, cs1) :=
    match cs with
    | c :: rest => if c = '-' then ([c], rest) else ([], cs)
    | [] => ([], cs)
  match parseInt cs1 with
  | none => none
  | some (i, cs2) =>
    match parseFrac cs2 with
    | none => none
    | some (f, cs3) =>
      match parseExp cs3 with
      | none => none
      | some (e, cs4) => some (sign ++ i ++ f ++ e, cs4)

/-- What the parser is in the middle of: a value, the elements of an array after `[`
or a comma, or the members of an object after `\x7b` or a comma. -/
inductive Task where
  | value
  | elements (acc : List Json)
  | members (acc : List (String × Json))

/-- The recursive-descent parser.  Every recursive call follows at least one consumed
character and uses one unit of fuel. -/
def parseGo : Nat → Task → List Char → Except ParseError (Json × List Char)
  | 0, _, _ => .error .outOfFuel
  | fuel + 1, .value, cs =>
    match skipWs cs with
    | [] => .error .syntaxError
    | c :: rest =>
      if c = '\x7b' then
        match skipWs rest with
        | [] => .error .syntaxError
        | d :: rest' =>
          if d = '\x7d' then .ok (.obj [], rest') else parseGo fuel (.members []) rest
      else if c = '[' then
        match skipWs rest with
        | [] => .error .syntaxError
        | d :: rest' =>
          if d = ']' then .ok (.arr [], rest') else parseGo fuel (.elements []) rest
      else if c = '"' then
        match parseString rest with
        | .ok (s, rest') => .ok (.str s, rest')
        | .error e => .error e
      else if "true".toList.isPrefixOf (c :: rest) then .ok (.bool true, (c :: rest).drop 4)
      else if "false".toList.isPrefixOf (c :: rest) then .ok (.bool false, (c :: rest).drop 5)
      else if "null".toList.isPrefixOf (c :: rest) then .ok (.null, (c :: rest).drop 4)
      else
        match parseNumber (c :: rest) with
        | some (lexeme, rest') => .ok (.num lexeme, rest')
        | none => .error .syntaxError
  | fuel + 1, .elements acc, cs =>
    match parseGo fuel .value cs with
    | .error e => .error e
    | .ok (v, rest) =>
      match skipWs rest with
      | [] => .error .syntaxError
      | d :: rest' =>
        if d = ',' then parseGo fuel (.elements (acc ++ [v])) rest'
        else if d = ']' then .ok (.arr (acc ++ [v]), rest')
        else .error .syntaxError
  | fuel + 1, .members acc, cs =>
    match skipWs cs with
    | [] => .error .syntaxError
    | q :: rest =>
      if q = '"' then
        match parseString rest with
        | .error e => .error e
        | .ok (k, rest1) =>
          match skipWs rest1 with
          | [] => .error .syntaxError
          | colon :: rest2 =>
            if colon = ':' then
              match parseGo fuel .value rest2 with
              | .error e => .error e
              | .ok (v, rest3) =>
                match skipWs rest3 with
                | [] => .error .syntaxError
                | d :: rest4 =>
                  if d = ',' then parseGo fuel (.members (acc ++ [(k, v)])) rest4
                  else if d = '\x7d' then .ok (.obj (acc ++ [(k, v)]), rest4)
                  else .error .syntaxError
            else .error .syntaxError
      else .error .syntaxError

/-- `JSON.parse(text)`: one value, white space around it, nothing else.  The fuel is
twice the length of the text and two more: a nesting level costs two units and at least
one character (`parse_ne_outOfFuel`). -/
def parse (text : String) : Except ParseError Json :=
  match parseGo (2 * text.length + 2) .value text.toList with
  | .error e => .error e
  | .ok (v, rest) => if skipWs rest = [] then .ok v else .error .syntaxError

/-- Fuel a task needs beyond twice the length of its input. -/
def Task.weight : Task → Nat
  | .value => 0
  | .elements _ => 1
  | .members _ => 1

/-- A parse result that is not a fuel failure and, when it is a success, leaves fewer
than `n` characters of input. -/
def Within {α : Type} (n : Nat) : Except ParseError (α × List Char) → Prop
  | .ok (_, r) => r.length < n
  | .error e => e = .syntaxError

/-- The escape `JSON.stringify` writes for one character of a string. -/
def quoteChar (c : Char) : List Char :=
  if c = '"' then ['\\', '"']
  else if c = '\\' then ['\\', '\\']
  else if c = Char.ofNat 8 then ['\\', 'b']
  else if c = Char.ofNat 12 then ['\\', 'f']
  else if c = '\n' then ['\\', 'n']
  else if c = '\r' then ['\\', 'r']
  else if c = '\t' then ['\\', 't']
  else if c.toNat < 0x20 then
    ['\\', 'u', '0', '0', hexDigit (c.toNat / 16), hexDigit (c.toNat % 16)]
  else [c]

/-- The characters of a string between the quotes `JSON.stringify` writes. -/
def quoteBody (s : List Char) : List Char :=
  s.flatMap quoteChar

/-- `QuoteJSONString`: the string in double quotes, escaped. -/
def quote (s : String) : List Char :=
  '"' :: quoteBody s.toList ++ ['"']

/-- `JSON.stringify` of one book object: its properties in creation order, `summary`
left out when it is `undefined`. -/
def stringifyBook (b : Book) : List Char :=
  ['\x7b'] ++ quote "title" ++ [':'] ++ quote b.title ++
    [','] ++ quote "author" ++ [':'] ++ quote b.author ++
    [','] ++ quote "cover" ++ [':'] ++ quote b.cover ++
    (match b.summary with
      | some s => [','] ++ quote "summary" ++ [':'] ++ quote s
      | none => []) ++ ['\x7d']

/-- The elements of an array, separated by commas. -/
def stringifyItems : List Book → List Char
  | [] => []
  | [b] => stringifyBook b
  | b :: bs => stringifyBook b ++ [','] ++ stringifyItems bs

/-- `JSON.stringify(favorites)` for an array of book objects. -/
def stringify (favorites : List Book) : String :=
  String.mk (['['] ++ stringifyItems favorites ++ [']'])

end JSON

/-- The object `JSON.parse` rebuilds from the text of one book. -/
def bookJson (b : Book) : Json :=
  .obj ([("title", .str b.title), ("author", .str b.author), ("cover", .str b.cover)] ++
    (match b.summary with
      | some s => [("summary", .str s)]
      | none => []))

/-- The array `JSON.parse` rebuilds from the text of a favorites sequence. -/
def favoritesJson (favorites : List Book) : Json :=
  .arr (favorites.map bookJson)

/-! ## Favorites store -/

/-- The favorites state: the in-memory array `favorites` and the value stored in
`localStorage` under `'bookhub:favs'` (`none` when there is no entry). -/
structure Store where
  favorites : List Book
  slot : Option String
deriving DecidableEq, Repr

/-- The initialiser of `favorites` (line 57):
`JSON.parse(localStorage.getItem('bookhub:favs') || '[]')`.  An `error` is the
exception `JSON.parse` throws. -/
def load (slot : Option String) : Except ParseError Json :=
  JSON.parse
    (match slot with
      | some s => if s ≠ "" then s else "[]"
      | none => "[]")

/-- `persistFavs()` (line 70). -/
def persistFavs (st : Store) : Store :=
  { st with slot := some (JSON.stringify st.favorites) }

/-- The test `f.title === title && f.author === author` of the favorites handlers. -/
def sameBook (title author : String) (f : Book) : Bool :=
  f.title == title && f.author == author

/-- The click handler of a card's favorite button (lines 116-127), for the card and the
store it runs on.  The re-rendering of the favorites pane (`updateFavsUI`) reads the
store and writes neither it nor the card. -/
def favBtnClick (card : Card) (st : Store) : Card × Store :=
  match st.favorites.find? (sameBook card.book.title card.book.author) with
  | none =>
    ({ card with favBtnActive := true },
      persistFavs { st with favorites := st.favorites ++ [card.book] })
  | some _ =>
    ({ card with favBtnActive := false },
      persistFavs { st with
        favorites := st.favorites.filter (fun f => !(sameBook card.book.title card.book.author f)) })

/-- The click handler of the favorites list (lines 229-235) for a click on a `Remove`
button whose `data-title` and `data-author` attributes read `title` and `author`. -/
def removeFavClick (title author : String) (st : Store) : Store :=
  persistFavs { st with favorites := st.favorites.filter (fun f => !(sameBook title author f)) }

/-- The click handler of `clear-favs` (lines 224-226); `confirmed` is the answer to
`confirm('Clear all favorites?')`. -/
def clearFavsClick (confirmed : Bool) (st : Store) : Store :=
  if confirmed then persistFavs { st with favorites := [] } else st

/-- The favorites mutations of the user interface. -/
inductive Mutation where
  | toggle (card : Card)
  | remove (title author : String)
  | clear

/-- The store after a mutation (a clear is a mutation once it is confirmed). -/
def Mutation.apply (m : Mutation) (st : Store) : Store :=
  match m with
  | .toggle card => (favBtnClick card st).2
  | .remove title author => removeFavClick title author st
  | .clear => clearFavsClick true st

/-- The property read `v[key]` on a parsed value: the last member with that key of an
object, `none` (for `undefined`) otherwise. -/
def Json.get (key : String) : Json → Option Json
  | .obj members => (members.reverse.find? (fun kv => kv.1 == key)).map Prod.snd
  | _ => none

/-- The `(title, author)` reads of the elements of a parsed array, in order. -/
def Json.titleAuthorPairs : Json → Option (List (Option Json × Option Json))
  | .arr items => some (items.map (fun v => (v.get "title", v.get "author")))
  | _ => none

/-- The book Dune of the catalog. -/
def dune : Book :=
  ⟨"Dune", "Frank Herbert", "https://covers.openlibrary.org/b/id/8101348-L.jpg",
    some "Desert planet, politics and prophecy."⟩

/-- The book The Martian of the catalog. -/
def theMartian : Book :=
  ⟨"The Martian", "Andy Weir", "https://covers.openlibrary.org/b/id/8373590-L.jpg",
    some "A stranded astronaut's fight to survive."⟩

/-- The book Sapiens of the catalog. -/
def sapiens : Book :=
  ⟨"Sapiens", "Yuval Noah Harari", "https://covers.openlibrary.org/b/id/8165261-L.jpg",
    some "A brief history of humankind."⟩

/-- Two entries of a favorites sequence stand for the same book. -/
def SamePair (a b : Book) : Prop :=
  a.title = b.title ∧ a.author = b.author

/-- The favorites hold an entry with this title and author. -/
def HasFavorite (favorites : List Book) (title author : String) : Prop :=
  ∃ f ∈ favorites, f.title = title ∧ f.author = author

instance (favorites : List Book) (title author : String) :
    Decidable (HasFavorite favorites title author) := by
  unfold HasFavorite; exact inferInstance

/-! ## The query claims in the words of the specification -/

/-- A book matches a query when its lower-cased title or its lower-cased author contains
the trimmed, lower-cased query as a substring. -/
def MatchesQuery (toLowerCase : List Char → List Char) (query : String) (b : Book) : Prop :=
  toLowerCase (trim query.toList) <:+: toLowerCase b.title.toList ∨
  toLowerCase (trim query.toList) <:+: toLowerCase b.author.toList

instance (toLowerCase : List Char → List Char) (query : String) (b : Book) :
    Decidable (MatchesQuery toLowerCase query b) := by
  unfold MatchesQuery; exact inferInstance

/-! ## Theorems -/

theorem includes_iff_substring (s t : List Char) : includes s t = true ↔ t <:+: s := by
  unfold includes
  rw [List.any_eq_true, List.infix_iff_prefix_suffix]
  constructor
  · rintro ⟨u, hu, hp⟩
    exact ⟨u, List.isPrefixOf_iff_prefix.mp hp, (List.mem_tails _ _).mp hu⟩
  · rintro ⟨u, hp, hu⟩
    exact ⟨u, (List.mem_tails _ _).mpr hu, List.isPrefixOf_iff_prefix.mpr hp⟩

theorem bookMatches_iff (toLowerCase : List Char → List Char) (query : String) (b : Book) :
    bookMatches toLowerCase (toLowerCase (trim query.toList)) b = true ↔
      MatchesQuery toLowerCase query b := by
  simp [bookMatches, MatchesQuery, includes_iff_substring]

theorem renderResults_lastResults (list : List Book) (p : Page) :
    (renderResults list p).lastResults = list := by
  unfold renderResults
  split <;> rfl

theorem filterAndSearch_lastResults (toLowerCase : List Char → List Char)
    (genre q g : String) (p : Page) :
    (filterAndSearch toLowerCase genre q g p).map Page.lastResults =
      (baseSet genre).map (filterResults toLowerCase q g) := by
  unfold filterAndSearch
  cases baseSet genre with
  | error e => rfl
  | ok results =>
    show Except.ok _ = Except.ok _
    rw [renderResults_lastResults]

theorem filterResults_eq_filter (toLowerCase : List Char → List Char)
    (hnil : toLowerCase [] = []) (q g : String) (base : List Book) :
    filterResults toLowerCase q g base =
      base.filter (fun b =>
        decide ((trim g.toList = [] ∨ MatchesQuery toLowerCase g b) ∧
          (trim q.toList = [] ∨ MatchesQuery toLowerCase q b))) := by
  have hq : ∀ l : List Book,
      (if toLowerCase (trim q.toList) ≠ [] then
          l.filter (bookMatches toLowerCase (toLowerCase (trim q.toList))) else l) =
        l.filter (fun b => decide (trim q.toList = [] ∨ MatchesQuery toLowerCase q b)) := by
    intro l
    by_cases h : toLowerCase (trim q.toList) = []
    · rw [if_neg (not_not.mpr h)]
      have : ∀ b, MatchesQuery toLowerCase q b := fun b => by
        unfold MatchesQuery; rw [h]; exact Or.inl List.nil_infix
      symm
      rw [List.filter_eq_self]
      intro b _
      exact decide_eq_true (Or.inr (this b))
    · rw [if_pos h]
      have hne : trim q.toList ≠ [] := fun e => h (by rw [e, hnil])
      apply List.filter_congr
      intro b _
      rw [Bool.eq_iff_iff, bookMatches_iff, decide_eq_true_iff]
      exact ⟨Or.inr, fun o => o.resolve_left hne⟩
  have hg : ∀ l : List Book,
      (if trim g.toList ≠ [] then
          l.filter (bookMatches toLowerCase (toLowerCase (trim g.toList))) else l) =
        l.filter (fun b => decide (trim g.toList = [] ∨ MatchesQuery toLowerCase g b)) := by
    intro l
    by_cases h : trim g.toList = []
    · rw [if_neg (not_not.mpr h)]
      symm
      rw [List.filter_eq_self]
      intro b _
      exact decide_eq_true (Or.inl h)
    · rw [if_pos h]
      apply List.filter_congr
      intro b _
      rw [Bool.eq_iff_iff, bookMatches_iff, decide_eq_true_iff]
      exact ⟨Or.inr, fun o => o.resolve_left h⟩
  unfold filterResults
  simp only []
  rw [hq, hg, List.filter_filter]
  apply List.filter_congr
  intro b _
  rw [Bool.eq_iff_iff]
  simp [and_comm]

theorem baseSet_empty : baseSet "" = .ok flattenDB := rfl

theorem baseSet_own (kv : String × List Book) (h : kv ∈ books) : baseSet kv.1 = .ok kv.2 := by
  simp only [books, List.mem_cons, List.mem_singleton, List.not_mem_nil, or_false] at h
  rcases h with rfl | rfl | rfl | rfl | rfl <;> rfl

theorem baseSet_inherited (genre : String) (h : genre ∈ objectPrototypeKeys) :
    baseSet genre = .error .typeError := by
  simp only [objectPrototypeKeys, List.mem_cons, List.mem_singleton, List.not_mem_nil,
    or_false] at h
  rcases h with rfl | rfl | rfl | rfl | rfl | rfl | rfl | rfl | rfl | rfl | rfl | rfl <;> rfl

theorem booksAt_own (genre : String) (list : List Book) (h : booksAt genre = .own list) :
    ∃ kv ∈ books, kv.1 = genre ∧ kv.2 = list := by
  unfold booksAt at h
  split at h
  · rename_i kv hkv
    simp only [PropertyRead.own.injEq] at h
    exact ⟨kv, List.mem_of_find?_eq_some hkv, by simpa using List.find?_some hkv, h⟩
  · split at h <;> exact absurd h (by simp)

theorem booksAt_inherited (genre : String) (h : booksAt genre = .inherited) :
    genre ∈ objectPrototypeKeys := by
  unfold booksAt at h
  split at h
  · exact absurd h (by simp)
  · split at h
    · assumption
    · exact absurd h (by simp)

theorem baseSet_error (genre : String) (e : Thrown) (h : baseSet genre = .error e) :
    genre ∈ objectPrototypeKeys := by
  unfold baseSet at h
  split at h
  · cases hb : booksAt genre with
    | own list => rw [hb] at h; exact absurd h (by simp)
    | inherited => exact booksAt_inherited genre hb
    | undefined => rw [hb] at h; exact absurd h (by simp)
  · exact absurd h (by simp)

theorem baseSet_undefined (genre : String) (h0 : genre ≠ "")
    (hown : ∀ kv ∈ books, kv.1 ≠ genre) (hin : genre ∉ objectPrototypeKeys) :
    baseSet genre = .ok [] := by
  have hf : books.find? (fun kv => kv.1 == genre) = none := by
    rw [List.find?_eq_none]
    intro kv hkv
    simpa using hown kv hkv
  unfold baseSet booksAt
  rw [if_pos h0, hf]
  simp only [if_neg hin]

theorem baseSet_sublist (genre : String) (base : List Book) (h : baseSet genre = .ok base) :
    List.Sublist base flattenDB := by
  unfold baseSet at h
  split at h
  · cases hb : booksAt genre with
    | own list =>
      rw [hb] at h
      simp only [Except.ok.injEq] at h
      obtain ⟨kv, hkv, _, hl⟩ := booksAt_own genre list hb
      rw [← h, ← hl]
      exact List.sublist_flatten_of_mem (List.mem_map_of_mem _ hkv)
    | inherited => rw [hb] at h; exact absurd h (by simp)
    | undefined =>
      rw [hb] at h
      simp only [Except.ok.injEq] at h
      rw [← h]
      exact List.nil_sublist _
  · simp only [Except.ok.injEq] at h
    rw [← h]

theorem filterResults_sublist (toLowerCase : List Char → List Char)
    (q g : String) (base : List Book) :
    List.Sublist (filterResults toLowerCase q g base) base := by
  unfold filterResults
  simp only []
  split <;> split
  · exact (List.filter_sublist _).trans (List.filter_sublist _)
  · exact List.filter_sublist _
  · exact List.filter_sublist _
  · exact List.Sublist.refl _

/-! ## Claims about the query engine -/

/-- C1: for every lower-casing of the runtime that maps the empty string to itself and
every genre value, local query `q` and global query `g`: the base set is `flattenDB()`
when no genre is selected, the list `books[genre]` for each key of the catalog, and empty
for any other name that `Object.prototype` does not define (on those the read throws a
`TypeError` and so does `filterAndSearch`); and whenever the base set is read,
`filterAndSearch` returns and the list it passes to `renderResults` (kept in
`lastResults`) is the base set filtered to the books that match `g` when the trimmed `g`
is non-empty and match `q` when the trimmed `q` is non-empty; with both queries non-empty
that is the books of the base set in both match sets, in base-set order. -/
theorem filterAndSearch_exact (toLowerCase : List Char → List Char)
    (hnil : toLowerCase [] = []) (genre q g : String) (p : Page) :
    (baseSet "" = .ok flattenDB ∧
      (∀ kv ∈ books, baseSet kv.1 = .ok kv.2) ∧
      (∀ k ∈ objectPrototypeKeys, baseSet k = .error .typeError) ∧
      (genre ≠ "" → (∀ kv ∈ books, kv.1 ≠ genre) → genre ∉ objectPrototypeKeys →
        baseSet genre = .ok [])) ∧
    (∀ e, baseSet genre = .error e → filterAndSearch toLowerCase genre q g p = .error e) ∧
    (∀ base, baseSet genre = .ok base →
      ∃ p', filterAndSearch toLowerCase genre q g p = .ok p' ∧
        p'.lastResults =
          base.filter (fun b =>
            decide ((trim g.toList = [] ∨ MatchesQuery toLowerCase g b) ∧
              (trim q.toList = [] ∨ MatchesQuery toLowerCase q b))) ∧
        (trim g.toList ≠ [] → trim q.toList ≠ [] →
          p'.lastResults =
            base.filter (fun b =>
              decide (MatchesQuery toLowerCase g b ∧ MatchesQuery toLowerCase q b)) ∧
          ∀ b, b ∈ p'.lastResults ↔
            b ∈ base.filter (fun b => decide (MatchesQuery toLowerCase g b)) ∧
            b ∈ base.filter (fun b => decide (MatchesQuery toLowerCase q b)))) := by
  refine ⟨⟨baseSet_empty, baseSet_own, baseSet_inherited, baseSet_undefined genre⟩, ?_, ?_⟩
  · intro e he
    unfold filterAndSearch
    rw [he]
  · intro base hbase
    have main := filterResults_eq_filter toLowerCase hnil q g base
    refine ⟨_, by unfold filterAndSearch; rw [hbase], ?_, ?_⟩
    · rw [renderResults_lastResults, main]
    · intro hg hq
      rw [renderResults_lastResults]
      have e : filterResults toLowerCase q g base =
          base.filter (fun b =>
            decide (MatchesQuery toLowerCase g b ∧ MatchesQuery toLowerCase q b)) := by
        rw [main]
        apply List.filter_congr
        intro b _
        rw [Bool.eq_iff_iff, decide_eq_true_iff, decide_eq_true_iff]
        exact ⟨fun h => ⟨h.1.resolve_left hg, h.2.resolve_left hq⟩,
          fun h => ⟨Or.inr h.1, Or.inr h.2⟩⟩
      refine ⟨e, fun b => ?_⟩
      rw [e]
      simp only [List.mem_filter, decide_eq_true_iff]
      tauto

/-- Witness of C1 at the ASCII lower-casing, the genre `sci-fi`, the local query `dune`
and the global query ` A `: the base set is `[Dune, The Martian]`, both of which match
the global query, and the single result is Dune.  With no genre, the same local query
and the global query `a` the result is Dune too, and with the genre `constructor` the
handler throws. -/
theorem filterAndSearch_exact_witness :
    asciiToLowerCase [] = [] ∧
    baseSet "sci-fi" = .ok [dune, theMartian] ∧
    (∃ p', filterAndSearch asciiToLowerCase "sci-fi" "dune" " A " initialPage = .ok p' ∧
      p'.lastResults =
        [dune, theMartian].filter (fun b =>
          decide ((trim " A ".toList = [] ∨ MatchesQuery asciiToLowerCase " A " b) ∧
            (trim "dune".toList = [] ∨ MatchesQuery asciiToLowerCase "dune" b)))) ∧
    [dune, theMartian].filter (fun b => decide (MatchesQuery asciiToLowerCase " A " b)) =
      [dune, theMartian] ∧
    (filterAndSearch asciiToLowerCase "sci-fi" "dune" " A " initialPage).map
      (fun p' => p'.lastResults) = .ok [dune] ∧
    (filterAndSearch asciiToLowerCase "" "dune" "a" initialPage).map
      (fun p' => p'.lastResults) = .ok [dune] ∧
    filterAndSearch asciiToLowerCase "constructor" "dune" "a" initialPage =
      .error .typeError :=
  have h := (filterAndSearch_exact asciiToLowerCase rfl "sci-fi" "dune" " A "
    initialPage).2.2 [dune, theMartian] rfl
  ⟨rfl, rfl, h.imp (fun _ hp => ⟨hp.1, hp.2.1⟩), by decide, rfl, rfl, rfl⟩

/-- C2: for every genre value and every pair of queries, either `filterAndSearch`
returns and the list it passed to `renderResults` is an order-preserving subsequence of
`flattenDB()`, or the genre is a property name of `Object.prototype`, the read of
`books[genre]` throws, and no list is passed. -/
theorem filterAndSearch_sublist_flattenDB (toLowerCase : List Char → List Char)
    (genre q g : String) (p : Page) :
    (∃ p', filterAndSearch toLowerCase genre q g p = .ok p' ∧
      List.Sublist p'.lastResults flattenDB) ∨
    (genre ∈ objectPrototypeKeys ∧
      filterAndSearch toLowerCase genre q g p = .error .typeError) := by
  cases hb : baseSet genre with
  | error e =>
    have hk := baseSet_error genre e hb
    refine Or.inr ⟨hk, ?_⟩
    unfold filterAndSearch
    rw [baseSet_inherited genre hk]
  | ok base =>
    refine Or.inl ⟨_, by unfold filterAndSearch; rw [hb], ?_⟩
    rw [renderResults_lastResults]
    exact (filterResults_sublist toLowerCase q g base).trans (baseSet_sublist genre base hb)

/-- C3: with no genre selected and both queries empty (and a lower-casing that maps the
empty string to itself), `filterAndSearch` returns and passes `flattenDB()` itself to
`renderResults`; it has 10 entries, whose (title, author) pairs are pairwise distinct. -/
theorem filterAndSearch_all (toLowerCase : List Char → List Char)
    (hnil : toLowerCase [] = []) (p : Page) :
    (∃ p', filterAndSearch toLowerCase "" "" "" p = .ok p' ∧ p'.lastResults = flattenDB) ∧
    flattenDB.length = 10 ∧
    (flattenDB.map (fun b => (b.title, b.author))).Nodup := by
  refine ⟨⟨_, rfl, ?_⟩, by decide, by decide⟩
  rw [renderResults_lastResults]
  have h1 : trim "".toList = [] := by decide
  unfold filterResults
  simp only [h1, hnil, ne_eq, not_true_eq_false, if_false]

/-- Witness of C3 at the ASCII lower-casing and the page after start-up. -/
theorem filterAndSearch_all_witness :
    asciiToLowerCase [] = [] ∧
    (∃ p', filterAndSearch asciiToLowerCase "" "" "" initialPage = .ok p' ∧
      p'.lastResults = flattenDB) ∧
    flattenDB.length = 10 ∧
    (flattenDB.map (fun b => (b.title, b.author))).Nodup :=
  ⟨rfl, filterAndSearch_all asciiToLowerCase rfl initialPage⟩

/-! ## `JSON.parse` after `JSON.stringify` -/

namespace JSON

theorem hexVal_hexDigit (k : Nat) (h : k < 16) : hexVal (hexDigit k) = some k := by
  interval_cases k <;> decide

theorem parseHex4_control (a b : Nat) (ha : a < 16) (hb : b < 16) (rest : List Char) :
    parseHex4 ('0' :: '0' :: hexDigit a :: hexDigit b :: rest) = some (a * 16 + b, rest) := by
  have e0 : hexVal '0' = some 0 := by decide
  simp [parseHex4, e0, hexVal_hexDigit a ha, hexVal_hexDigit b hb]

theorem prepend_ok (c : Char) (s rest : List Char) :
    prepend c (.ok (s, rest)) = .ok (c :: s, rest) := rfl

theorem quoteChar_length_pos (c : Char) : 0 < (quoteChar c).length := by
  unfold quoteChar
  repeat' split
  all_goals simp

theorem parseStringBody_quoteBody (s : List Char) :
    ∀ (rest : List Char) (fuel : Nat), (quoteBody s).length < fuel →
      parseStringBody fuel (quoteBody s ++ '"' :: rest) = .ok (s, rest) := by
  induction s with
  | nil =>
    intro rest fuel h
    obtain ⟨f, rfl⟩ : ∃ f, fuel = f + 1 := ⟨fuel - 1, by omega⟩
    simp [quoteBody, parseStringBody]
  | cons c s ih =>
    intro rest fuel h
    have hq : quoteBody (c :: s) = quoteChar c ++ quoteBody s := by
      simp [quoteBody]
    rw [hq, List.length_append] at h
    have hpos := quoteChar_length_pos c
    obtain ⟨f, rfl⟩ : ∃ f, fuel = f + 1 := ⟨fuel - 1, by omega⟩
    have ih' := ih rest f (by omega)
    rw [hq, List.append_assoc]
    by_cases h1 : c = '"'
    · subst h1
      simp [quoteChar, parseStringBody, simpleEscape, ih', prepend_ok]
    by_cases h2 : c = '\\'
    · subst h2
      simp [quoteChar, parseStringBody, simpleEscape, ih', prepend_ok]
    by_cases h3 : c = Char.ofNat 8
    · subst h3
      simp [quoteChar, parseStringBody, simpleEscape, ih', prepend_ok]
    by_cases h4 : c = Char.ofNat 12
    · subst h4
      simp [quoteChar, parseStringBody, simpleEscape, ih', prepend_ok]
    by_cases h5 : c = '\n'
    · subst h5
      simp [quoteChar, parseStringBody, simpleEscape, ih', prepend_ok]
    by_cases h6 : c = '\r'
    · subst h6
      simp [quoteChar, parseStringBody, simpleEscape, ih', prepend_ok]
    by_cases h7 : c = '\t'
    · subst h7
      simp [quoteChar, parseStringBody, simpleEscape, ih', prepend_ok]
    by_cases h8 : c.toNat < 0x20
    · have hqc : quoteChar c =
          ['\\', 'u', '0', '0', hexDigit (c.toNat / 16), hexDigit (c.toNat % 16)] := by
        simp [quoteChar, h1, h2, h3, h4, h5, h6, h7, h8]
      have e1 := parseHex4_control (c.toNat / 16) (c.toNat % 16) (by omega) (by omega)
        (quoteBody s ++ '"' :: rest)
      have ev : c.toNat / 16 * 16 + c.toNat % 16 = c.toNat := by omega
      rw [ev] at e1
      have n1 : ¬ (0xD800 ≤ c.toNat ∧ c.toNat ≤ 0xDBFF) := by omega
      have n2 : ¬ (0xDC00 ≤ c.toNat ∧ c.toNat ≤ 0xDFFF) := by omega
      rw [hqc]
      simp [parseStringBody, e1, n1, n2, ih', prepend_ok]
    · have hqc : quoteChar c = [c] := by
        simp [quoteChar, h1, h2, h3, h4, h5, h6, h7, h8]
      rw [hqc]
      simp [parseStringBody, h1, h2, h8, ih', prepend_ok]

theorem parseString_quote (s : String) (rest : List Char) :
    parseString (quoteBody s.data ++ '"' :: rest) = .ok (s, rest) := by
  unfold parseString
  rw [parseStringBody_quoteBody s.data rest _ (by simp; omega)]

theorem skipWs_cons (c : Char) (cs : List Char) (h : isWs c = false) :
    skipWs (c :: cs) = c :: cs := by
  simp [skipWs, h]

theorem parseGo_value_string (f : Nat) (s : String) (rest : List Char) :
    parseGo (f + 1) .value (quote s ++ rest) = .ok (.str s, rest) := by
  have h : quote s ++ rest = '"' :: (quoteBody s.data ++ '"' :: rest) := by
    simp [quote]
  rw [h, parseGo, skipWs_cons _ _ (by decide)]
  simp [parseString_quote]

theorem quote_append (s : String) (rest : List Char) :
    quote s ++ rest = '"' :: (quoteBody s.data ++ '"' :: rest) := by
  simp [quote]

theorem parseGo_member_more (f : Nat) (acc : List (String × Json)) (k s : String)
    (rest : List Char) :
    parseGo (f + 2) (.members acc) (quote k ++ ':' :: (quote s ++ ',' :: rest)) =
      parseGo (f + 1) (.members (acc ++ [(k, .str s)])) rest := by
  rw [quote_append, parseGo, skipWs_cons _ _ (by decide)]
  simp only [if_true, parseString_quote]
  rw [skipWs_cons _ _ (by decide)]
  simp only [if_true, parseGo_value_string]
  rw [skipWs_cons _ _ (by decide)]
  simp

theorem parseGo_member_last (f : Nat) (acc : List (String × Json)) (k s : String)
    (rest : List Char) :
    parseGo (f + 2) (.members acc) (quote k ++ ':' :: (quote s ++ '\x7d' :: rest)) =
      .ok (.obj (acc ++ [(k, .str s)]), rest) := by
  rw [quote_append, parseGo, skipWs_cons _ _ (by decide)]
  simp only [if_true, parseString_quote]
  rw [skipWs_cons _ _ (by decide)]
  simp only [if_true, parseGo_value_string]
  rw [skipWs_cons _ _ (by decide)]
  simp

theorem stringifyBook_append (b : Book) (rest : List Char) :
    stringifyBook b ++ rest =
      '\x7b' :: (quote "title" ++ ':' :: (quote b.title ++ ',' ::
        (quote "author" ++ ':' :: (quote b.author ++ ',' ::
          (quote "cover" ++ ':' :: (quote b.cover ++
            (match b.summary with
              | some s => ',' :: (quote "summary" ++ ':' :: (quote s ++ '\x7d' :: rest))
              | none => '\x7d' :: rest))))))) := by
  cases h : b.summary <;> simp [stringifyBook, h]

theorem parseGo_value_book (f : Nat) (b : Book) (rest : List Char) :
    parseGo (f + 6) .value (stringifyBook b ++ rest) = .ok (bookJson b, rest) := by
  rw [stringifyBook_append, parseGo, skipWs_cons _ _ (by decide)]
  simp only [if_true]
  rw [quote_append, skipWs_cons _ _ (by decide)]
  dsimp only
  rw [if_neg (by decide), ← quote_append]
  rw [parseGo_member_more (f + 3), parseGo_member_more (f + 2)]
  cases h : b.summary with
  | none =>
    simp only []
    rw [parseGo_member_last (f + 1)]
    simp [bookJson, h]
  | some s =>
    simp only []
    rw [parseGo_member_more (f + 1), parseGo_member_last f]
    simp [bookJson, h]

theorem parseGo_elements (favs : List Book) :
    ∀ (acc : List Json) (rest : List Char) (f : Nat), favs ≠ [] →
      parseGo (f + favs.length + 6) (.elements acc) (stringifyItems favs ++ ']' :: rest) =
        .ok (.arr (acc ++ favs.map bookJson), rest) := by
  induction favs with
  | nil => intro _ _ _ h; exact absurd rfl h
  | cons b bs ih =>
    intro acc rest f _
    cases bs with
    | nil =>
      have e : f + [b].length + 6 = (f + 6) + 1 := by simp
      rw [e, parseGo]
      simp only [stringifyItems, parseGo_value_book]
      rw [skipWs_cons _ _ (by decide)]
      simp
    | cons b' bs' =>
      have e : f + (b :: b' :: bs').length + 6 = (f + (b' :: bs').length + 6) + 1 := by
        simp; omega
      have e' : f + (b' :: bs').length + 6 = (f + (b' :: bs').length) + 6 := by omega
      have hs : stringifyItems (b :: b' :: bs') ++ ']' :: rest =
          stringifyBook b ++ (',' :: (stringifyItems (b' :: bs') ++ ']' :: rest)) := by
        simp [stringifyItems]
      rw [e, hs, parseGo]
      rw [e', parseGo_value_book, ← e']
      dsimp only
      rw [skipWs_cons _ _ (by decide)]
      dsimp only
      rw [if_pos rfl, ih _ _ _ (by simp)]
      simp

theorem stringifyBook_length (b : Book) : 5 ≤ (stringifyBook b).length := by
  simp [stringifyBook, quote]
  omega

theorem stringifyItems_length (favs : List Book) :
    5 * favs.length ≤ (stringifyItems favs).length := by
  induction favs with
  | nil => simp
  | cons b bs ih =>
    cases bs with
    | nil => simpa [stringifyItems] using stringifyBook_length b
    | cons b' bs' =>
      have := stringifyBook_length b
      simp only [stringifyItems, List.length_append, List.length_cons,
        List.length_nil] at ih ⊢
      omega

/-- `JSON.parse(JSON.stringify(favorites))` rebuilds the array of book objects. -/
theorem parse_stringify (favs : List Book) :
    parse (stringify favs) = .ok (favoritesJson favs) := by
  cases favs with
  | nil => rfl
  | cons b bs =>
    have hlen := stringifyItems_length (b :: bs)
    have htext : (stringify (b :: bs)).toList =
        '[' :: (stringifyItems (b :: bs) ++ ']' :: []) := by
      simp [stringify]
    have hfuel : 2 * (stringify (b :: bs)).length + 1 =
        (2 * (stringify (b :: bs)).length - (b :: bs).length - 5) + (b :: bs).length + 6 := by
      simp only [stringify, String.length, List.length_append, List.length_cons,
        List.length_nil] at hlen ⊢
      omega
    have hhead : ∃ tl, stringifyItems (b :: bs) ++ ']' :: [] = '\x7b' :: tl := by
      have hb : ∃ tl, stringifyBook b = '\x7b' :: tl :=
        ⟨_, by have h := stringifyBook_append b []; rwa [List.append_nil] at h⟩
      obtain ⟨tl, htl⟩ := hb
      cases bs with
      | nil => exact ⟨tl ++ [']'], by show stringifyBook b ++ _ = _; rw [htl]; rfl⟩
      | cons b' bs' =>
        exact ⟨tl ++ [','] ++ stringifyItems (b' :: bs') ++ [']'], by
          show stringifyBook b ++ [','] ++ stringifyItems (b' :: bs') ++ _ = _
          rw [htl]; rfl⟩
    unfold parse
    rw [htext, parseGo, skipWs_cons _ _ (by decide)]
    dsimp only
    rw [if_neg (by decide), if_pos rfl]
    obtain ⟨tl, htl⟩ := hhead
    rw [htl, skipWs_cons _ _ (by decide)]
    dsimp only
    rw [if_neg (by decide), ← htl, hfuel, parseGo_elements _ _ _ _ (by simp)]
    simp [favoritesJson, skipWs]

end JSON

/-! ## `JSON.parse` is total -/

namespace JSON

theorem Within.mono {α : Type} {n m : Nat} {x : Except ParseError (α × List Char)}
    (h : Within n x) (hnm : n ≤ m) : Within m x := by
  cases x with
  | error e => exact h
  | ok v => obtain ⟨a, r⟩ := v; exact Nat.lt_of_lt_of_le h hnm

theorem Within.prepend {n : Nat} {x : Except ParseError (List Char × List Char)} (c : Char)
    (h : Within n x) : Within n (prepend c x) := by
  cases x with
  | error e => exact h
  | ok v => obtain ⟨a, r⟩ := v; exact h

theorem skipWs_length (cs : List Char) : (skipWs cs).length ≤ cs.length :=
  (List.dropWhile_sublist _).length_le

theorem parseHex4_length {cs r : List Char} {v : Nat} (h : parseHex4 cs = some (v, r)) :
    r.length + 4 = cs.length := by
  match cs, h with
  | a :: b :: c :: d :: rest, h =>
    simp only [parseHex4] at h
    split at h
    · simp only [Option.some.injEq, Prod.mk.injEq] at h
      rw [← h.2]; simp
    · exact absurd h (by simp)

theorem lowSurrogateEscape_length {cs r : List Char} {w : Nat}
    (h : lowSurrogateEscape cs = some (w, r)) : r.length + 6 = cs.length := by
  match cs, h with
  | c :: e :: rest, h =>
    simp only [lowSurrogateEscape] at h
    split at h
    · split at h
      · rename_i w' rest' hp
        split at h
        · simp only [Option.some.injEq, Prod.mk.injEq] at h
          have := parseHex4_length hp
          rw [← h.2]; simp; omega
        · exact absurd h (by simp)
      · exact absurd h (by simp)
    · exact absurd h (by simp)

theorem parseStringBody_within (fuel : Nat) :
    ∀ cs : List Char, cs.length < fuel → Within cs.length (parseStringBody fuel cs) := by
  induction fuel with
  | zero => intro cs h; exact absurd h (Nat.not_lt_zero _)
  | succ f ih =>
    intro cs h
    cases cs with
    | nil => simp [parseStringBody, Within]
    | cons c cs =>
      have hlen : cs.length < f := by simpa using h
      simp only [parseStringBody]
      split
      · simp [Within]
      split
      · cases cs with
        | nil => simp [Within]
        | cons e cs1 =>
          have h1 : cs1.length < f := by simp at hlen; omega
          dsimp only
          split
          · split
            · simp [Within]
            · rename_i v cs2 hp
              have h2 := parseHex4_length hp
              have i2 : Within (c :: e :: cs1).length (parseStringBody f cs2) :=
                (ih cs2 (by omega)).mono (by simp; omega)
              split
              · split
                · rename_i w cs3 hl
                  have h3 := lowSurrogateEscape_length hl
                  exact ((ih cs3 (by omega)).mono (by simp; omega)).prepend _
                · exact i2.prepend _
              · split
                · exact i2.prepend _
                · exact i2.prepend _
          · split
            · exact ((ih cs1 h1).mono (by simp; omega)).prepend _
            · simp [Within]
      · split
        · simp [Within]
        · exact ((ih cs hlen).mono (by simp)).prepend _

theorem parseString_within (cs : List Char) : Within cs.length (parseString cs) := by
  have h := parseStringBody_within (cs.length + 1) cs (Nat.lt_succ_self _)
  unfold parseString
  cases hb : parseStringBody (cs.length + 1) cs with
  | error e => rw [hb] at h; exact h
  | ok v => obtain ⟨s, r⟩ := v; rw [hb] at h; exact h

theorem takeDigits_length (cs : List Char) : (takeDigits cs).2.length ≤ cs.length := by
  unfold takeDigits
  rw [List.span_eq_take_drop]
  exact (List.dropWhile_sublist _).length_le

theorem parseFrac_length {cs l r : List Char} (h : parseFrac cs = some (l, r)) :
    r.length ≤ cs.length := by
  unfold parseFrac at h
  split at h
  · rename_i c rest
    split at h
    · have ht := takeDigits_length rest
      split at h
      · exact absurd h (by simp)
      · rename_i ds rest' _ heq
        simp only [Option.some.injEq, Prod.mk.injEq] at h
        rw [heq] at ht
        rw [← h.2]; simp at ht ⊢; omega
    · simp only [Option.some.injEq, Prod.mk.injEq] at h
      rw [← h.2]
  · simp only [Option.some.injEq, Prod.mk.injEq] at h
    rw [← h.2]

theorem parseExp_length {cs l r : List Char} (h : parseExp cs = some (l, r)) :
    r.length ≤ cs.length := by
  unfold parseExp at h
  split at h
  · rename_i c rest
    split at h
    · dsimp only at h
      split at h
      · exact absurd h (by simp)
      · rename_i ds rest2 _ heq
        simp only [Option.some.injEq, Prod.mk.injEq] at h
        rw [← h.2]
        have h0 : (match rest with
            | s :: rest1 => if s = '+' ∨ s = '-' then ([s], rest1) else ([], rest)
            | [] => ([], rest)).2.length ≤ rest.length := by
          split
          · split <;> simp
          · simp
        have ht := takeDigits_length (match rest with
            | s :: rest1 => if s = '+' ∨ s = '-' then ([s], rest1) else ([], rest)
            | [] => ([], rest)).2
        rw [heq] at ht
        simp only [List.length_cons] at ht ⊢
        omega
    · simp only [Option.some.injEq, Prod.mk.injEq] at h
      rw [← h.2]
  · simp only [Option.some.injEq, Prod.mk.injEq] at h
    rw [← h.2]

theorem parseInt_length {cs l r : List Char} (h : parseInt cs = some (l, r)) :
    r.length < cs.length := by
  unfold parseInt at h
  split at h
  · rename_i c rest
    split at h
    · simp only [Option.some.injEq, Prod.mk.injEq] at h
      rw [← h.2]; simp
    · split at h
      · have ht := takeDigits_length rest
        simp only [Option.some.injEq, Prod.mk.injEq] at h
        rw [← h.2]; simp; omega
      · exact absurd h (by simp)
  · exact absurd h (by simp)

theorem parseNumber_length {cs l r : List Char} (h : parseNumber cs = some (l, r)) :
    r.length < cs.length := by
  unfold parseNumber at h
  dsimp only at h
  split at h
  · exact absurd h (by simp)
  · rename_i i cs2 hi
    split at h
    · exact absurd h (by simp)
    · rename_i fr cs3 hf
      split at h
      · exact absurd h (by simp)
      · rename_i e cs4 he
        simp only [Option.some.injEq, Prod.mk.injEq] at h
        have h1 := parseInt_length hi
        have h2 := parseFrac_length hf
        have h3 := parseExp_length he
        rw [← h.2]
        have h0 : (match cs with
            | c :: rest => if c = '-' then ([c], rest) else ([], cs)
            | [] => ([], cs)).2.length ≤ cs.length := by
          split
          · split <;> simp
          · simp
        omega

theorem skipWs_cons_length {cs rest : List Char} {c : Char} (h : skipWs cs = c :: rest) :
    rest.length < cs.length := by
  have := skipWs_length cs
  rw [h] at this
  simpa using this

theorem parseGo_within (fuel : Nat) :
    ∀ (task : Task) (cs : List Char), 2 * cs.length + task.weight < fuel →
      Within cs.length (parseGo fuel task cs) := by
  induction fuel with
  | zero => intro task cs h; exact absurd h (Nat.not_lt_zero _)
  | succ f ih =>
    intro task cs h
    cases task with
    | value =>
      simp only [Task.weight] at h
      simp only [parseGo]
      split
      · simp [Within]
      · rename_i c rest hs
        have hr := skipWs_cons_length hs
        have hdrop : ∀ n, 0 < n → ((c :: rest).drop n).length < cs.length := by
          intro n hn
          rw [List.length_drop]
          simp only [List.length_cons]
          omega
        split
        · split
          · simp [Within]
          · rename_i d rest' hs'
            have hr' := skipWs_cons_length hs'
            split
            · simp only [Within]; omega
            · exact (ih (.members []) rest (by simp only [Task.weight]; omega)).mono (by omega)
        split
        · split
          · simp [Within]
          · rename_i d rest' hs'
            have hr' := skipWs_cons_length hs'
            split
            · simp only [Within]; omega
            · exact (ih (.elements []) rest (by simp only [Task.weight]; omega)).mono (by omega)
        split
        · have hw := parseString_within rest
          split
          · rename_i s rest' hp
            rw [hp] at hw
            simp only [Within] at hw ⊢; omega
          · rename_i e hp
            rw [hp] at hw
            exact hw
        split
        · exact hdrop 4 (by omega)
        split
        · exact hdrop 5 (by omega)
        split
        · exact hdrop 4 (by omega)
        split
        · rename_i lexeme rest' hn
          have := parseNumber_length hn
          simp only [Within, List.length_cons] at this ⊢; omega
        · simp [Within]
    | elements acc =>
      simp only [Task.weight] at h
      simp only [parseGo]
      have hv := ih .value cs (by simp only [Task.weight]; omega)
      split
      · rename_i e he
        rw [he] at hv
        exact hv
      · rename_i v rest he
        rw [he] at hv
        simp only [Within] at hv
        split
        · simp [Within]
        · rename_i d rest' hs
          have hr := skipWs_cons_length hs
          split
          · exact (ih (.elements _) rest' (by simp only [Task.weight]; omega)).mono (by omega)
          · split
            · simp only [Within]; omega
            · simp [Within]
    | members acc =>
      simp only [Task.weight] at h
      simp only [parseGo]
      split
      · simp [Within]
      · rename_i q rest hs
        have hr := skipWs_cons_length hs
        split
        · have hw := parseString_within rest
          split
          · rename_i e hp
            rw [hp] at hw
            exact hw
          · rename_i k rest1 hp
            rw [hp] at hw
            simp only [Within] at hw
            split
            · simp [Within]
            · rename_i colon rest2 hs2
              have hr2 := skipWs_cons_length hs2
              split
              · have hv := ih .value rest2 (by simp only [Task.weight]; omega)
                split
                · rename_i e he
                  rw [he] at hv
                  exact hv
                · rename_i v rest3 he
                  rw [he] at hv
                  simp only [Within] at hv
                  split
                  · simp [Within]
                  · rename_i d rest4 hs4
                    have hr4 := skipWs_cons_length hs4
                    split
                    · exact (ih (.members _) rest4
                        (by simp only [Task.weight]; omega)).mono (by omega)
                    · split
                      · simp only [Within]; omega
                      · simp [Within]
              · simp [Within]
        · simp [Within]

/-- `JSON.parse` is total: the fuel it starts with is never used up, so an `error` is a
`SyntaxError`. -/
theorem parse_ne_outOfFuel (text : String) : parse text ≠ .error .outOfFuel := by
  have h := parseGo_within (2 * text.length + 2) .value text.toList
    (by show 2 * text.data.length + 0 < 2 * text.data.length + 2; omega)
  unfold parse
  cases hg : parseGo (2 * text.length + 2) .value text.toList with
  | error e =>
    rw [hg] at h
    simp only [Within] at h
    simp [h]
  | ok v =>
    obtain ⟨v, rest⟩ := v
    dsimp only
    split <;> simp

end JSON

/-! ## Lemmas about the favorites handlers -/

theorem find?_sameBook_none (favs : List Book) (t a : String)
    (h : favs.find? (sameBook t a) = none) : ¬ HasFavorite favs t a := by
  rintro ⟨f, hf, h1, h2⟩
  have := List.find?_eq_none.mp h f hf
  simp [sameBook, h1, h2] at this

theorem find?_sameBook_some (favs : List Book) (t a : String) (x : Book)
    (h : favs.find? (sameBook t a) = some x) : HasFavorite favs t a := by
  have hx := List.find?_some h
  have hm := List.mem_of_find?_eq_some h
  simp only [sameBook, Bool.and_eq_true, beq_iff_eq] at hx
  exact ⟨x, hm, hx⟩

theorem not_hasFavorite_filter (favs : List Book) (t a : String) :
    ¬ HasFavorite (favs.filter (fun f => !(sameBook t a f))) t a := by
  rintro ⟨f, hf, h1, h2⟩
  rw [List.mem_filter] at hf
  simp [sameBook, h1, h2] at hf

theorem filter_sameBook_of_not_hasFavorite (favs : List Book) (t a : String)
    (h : ¬ HasFavorite favs t a) :
    favs.filter (fun f => !(sameBook t a f)) = favs := by
  rw [List.filter_eq_self]
  intro f hf
  simp only [sameBook, Bool.not_eq_eq_eq_not, Bool.not_true, Bool.and_eq_false_imp, beq_iff_eq]
  intro h1
  by_contra h2
  exact h ⟨f, hf, h1, by simpa using h2⟩

theorem favBtnClick_favorites (card : Card) (st : Store) :
    (favBtnClick card st).2.favorites =
      if HasFavorite st.favorites card.book.title card.book.author then
        st.favorites.filter (fun f => !(sameBook card.book.title card.book.author f))
      else st.favorites ++ [card.book] := by
  unfold favBtnClick
  cases h : st.favorites.find? (sameBook card.book.title card.book.author) with
  | none => rw [if_neg (find?_sameBook_none _ _ _ h)]; rfl
  | some x => rw [if_pos (find?_sameBook_some _ _ _ x h)]; rfl

theorem favBtnClick_book (card : Card) (st : Store) :
    (favBtnClick card st).1.book = card.book := by
  unfold favBtnClick
  split <;> rfl

/-! ## Claims about the favorites store -/

/-- C4: for every favorites sequence and every card, two clicks in a row on the card's
favorite button leave the membership of the card's (title, author) pair as it was; from
empty favorites, the first click on the card of Dune gives `[Dune]` and the second gives
`[]`. -/
theorem favBtnClick_twice (card : Card) (st : Store) :
    (HasFavorite (favBtnClick (favBtnClick card st).1 (favBtnClick card st).2).2.favorites
        card.book.title card.book.author ↔
      HasFavorite st.favorites card.book.title card.book.author) ∧
    (favBtnClick (makeCard dune) ⟨[], none⟩).2.favorites = [dune] ∧
    (favBtnClick (favBtnClick (makeCard dune) ⟨[], none⟩).1
      (favBtnClick (makeCard dune) ⟨[], none⟩).2).2.favorites = [] := by
  refine ⟨?_, by decide, by decide⟩
  rw [favBtnClick_favorites (favBtnClick card st).1, favBtnClick_book,
    favBtnClick_favorites card st]
  by_cases h : HasFavorite st.favorites card.book.title card.book.author
  · rw [if_pos h, if_neg (not_hasFavorite_filter _ _ _)]
    exact ⟨fun _ => h, fun _ => ⟨card.book, by simp, rfl, rfl⟩⟩
  · rw [if_neg h]
    have h' : HasFavorite (st.favorites ++ [card.book]) card.book.title card.book.author :=
      ⟨card.book, by simp, rfl, rfl⟩
    rw [if_pos h']
    exact ⟨fun hh => absurd hh (not_hasFavorite_filter _ _ _), fun hh => absurd hh h⟩

/-- C9: for every favorites sequence and every (title, author) pair that matches no
entry of it, the remove handler of the favorites list returns (it is a total function)
and leaves the favorites sequence as it was. -/
theorem removeFavClick_absent (title author : String) (st : Store)
    (h : ¬ HasFavorite st.favorites title author) :
    (removeFavClick title author st).favorites = st.favorites := by
  unfold removeFavClick persistFavs
  exact filter_sameBook_of_not_hasFavorite _ _ _ h

/-- Witness of C9: removing Sapiens from the favorites `[Dune, The Martian]`. -/
theorem removeFavClick_absent_witness :
    ¬ HasFavorite [dune, theMartian] "Sapiens" "Yuval Noah Harari" ∧
    (removeFavClick "Sapiens" "Yuval Noah Harari" ⟨[dune, theMartian], none⟩).favorites =
      [dune, theMartian] :=
  ⟨by decide,
    removeFavClick_absent "Sapiens" "Yuval Noah Harari" ⟨[dune, theMartian], none⟩ (by decide)⟩

/-- C10: when no two entries of the favorites share both title and author, the same
holds after a click on any card's favorite button, after a remove of any (title, author)
pair and after a clear (confirmed or declined), and the new sequence is an
order-preserving subsequence of the old one, followed by the card's book in the case of
the favorite button. -/
theorem favorites_unique_preserved (st : Store)
    (h : st.favorites.Pairwise (fun a b => ¬ SamePair a b))
    (card : Card) (title author : String) (confirmed : Bool) :
    ((favBtnClick card st).2.favorites.Pairwise (fun a b => ¬ SamePair a b) ∧
      List.Sublist (favBtnClick card st).2.favorites (st.favorites ++ [card.book])) ∧
    ((removeFavClick title author st).favorites.Pairwise (fun a b => ¬ SamePair a b) ∧
      List.Sublist (removeFavClick title author st).favorites st.favorites) ∧
    ((clearFavsClick confirmed st).favorites.Pairwise (fun a b => ¬ SamePair a b) ∧
      List.Sublist (clearFavsClick confirmed st).favorites st.favorites) := by
  refine ⟨?_, ?_, ?_⟩
  · rw [favBtnClick_favorites]
    by_cases hf : HasFavorite st.favorites card.book.title card.book.author
    · rw [if_pos hf]
      exact ⟨h.sublist (List.filter_sublist _),
        (List.filter_sublist _).trans (List.sublist_append_left _ _)⟩
    · rw [if_neg hf]
      refine ⟨?_, List.Sublist.refl _⟩
      rw [List.pairwise_append]
      refine ⟨h, List.pairwise_singleton _ _, ?_⟩
      intro a ha b hb hab
      rw [List.mem_singleton] at hb
      subst hb
      exact hf ⟨a, ha, hab.1, hab.2⟩
  · unfold removeFavClick persistFavs
    exact ⟨h.sublist (List.filter_sublist _), List.filter_sublist _⟩
  · unfold clearFavsClick persistFavs
    cases confirmed
    · exact ⟨h, List.Sublist.refl _⟩
    · exact ⟨List.Pairwise.nil, List.nil_sublist _⟩

/-- Witness of C10: the favorites `[Dune, The Martian]`, a click on the card of Sapiens,
a remove of Dune and a confirmed clear. -/
theorem favorites_unique_preserved_witness :
    ([dune, theMartian] : List Book).Pairwise (fun a b => ¬ SamePair a b) ∧
    (favBtnClick (makeCard sapiens) ⟨[dune, theMartian], none⟩).2.favorites =
      [dune, theMartian, sapiens] ∧
    ((favBtnClick (makeCard sapiens) ⟨[dune, theMartian], none⟩).2.favorites.Pairwise
      (fun a b => ¬ SamePair a b)) ∧
    ((removeFavClick "Dune" "Frank Herbert" ⟨[dune, theMartian], none⟩).favorites.Pairwise
      (fun a b => ¬ SamePair a b)) :=
  have hw : ([dune, theMartian] : List Book).Pairwise (fun a b => ¬ SamePair a b) := by
    simp [SamePair, dune, theMartian]
  have r := favorites_unique_preserved ⟨[dune, theMartian], none⟩ hw (makeCard sapiens)
    "Dune" "Frank Herbert" true
  ⟨hw, by decide, r.1.1, r.2.1.1⟩

/-! ## Lemmas about loading, the card button and the reveal timers -/

/-- The initialiser of `favorites` either returns a value or throws a `SyntaxError`. -/
theorem load_ne_outOfFuel (slot : Option String) : load slot ≠ .error .outOfFuel :=
  JSON.parse_ne_outOfFuel _

/-- Right after a click on a card's favorite button, the button is `'active'` exactly
when the card's book is a favorite. -/
theorem favBtnClick_active_iff (card : Card) (st : Store) :
    (favBtnClick card st).1.favBtnActive = true ↔
      HasFavorite (favBtnClick card st).2.favorites card.book.title card.book.author := by
  rw [favBtnClick_favorites]
  unfold favBtnClick
  cases h : st.favorites.find? (sameBook card.book.title card.book.author) with
  | none =>
    rw [if_neg (find?_sameBook_none _ _ _ h)]
    exact ⟨fun _ => ⟨card.book, by simp, rfl, rfl⟩, fun _ => rfl⟩
  | some x =>
    rw [if_pos (find?_sameBook_some _ _ _ x h)]
    exact ⟨fun hh => absurd hh (by simp), fun hh => absurd hh (not_hasFavorite_filter _ _ _)⟩

theorem extractNext_mem {ts rest : List Timer} {m : Timer}
    (h : extractNext ts = some (m, rest)) : m ∈ ts := by
  induction ts generalizing m rest with
  | nil => simp [extractNext] at h
  | cons t ts ih =>
    simp only [extractNext] at h
    split at h
    · simp only [Option.some.injEq, Prod.mk.injEq] at h
      rw [← h.1]; simp
    · rename_i m' rest' hm
      split at h
      · simp only [Option.some.injEq, Prod.mk.injEq] at h
        rw [← h.1]; simp
      · simp only [Option.some.injEq, Prod.mk.injEq] at h
        rw [← h.1]
        exact List.mem_cons_of_mem _ (ih hm)

theorem extractNext_eq_none {ts : List Timer} (h : extractNext ts = none) : ts = [] := by
  cases ts with
  | nil => rfl
  | cons t ts =>
    simp only [extractNext] at h
    split at h
    · exact absurd h (by simp)
    · split at h <;> exact absurd h (by simp)

theorem extractNext_head (t : Timer) (ts : List Timer) (h : ∀ m ∈ ts, t.due ≤ m.due) :
    extractNext (t :: ts) = some (t, ts) := by
  simp only [extractNext]
  split
  · rename_i hn
    rw [extractNext_eq_none hn]
  · rename_i m rest hm
    rw [if_pos (h m (extractNext_mem hm))]

theorem scheduleFrom_due (now : Nat) (bs : List Book) :
    ∀ (i : Nat) (m : Timer), m ∈ scheduleFrom now i bs → now + i * 90 ≤ m.due := by
  induction bs with
  | nil => intro i m h; simp [scheduleFrom] at h
  | cons b bs ih =>
    intro i m h
    simp only [scheduleFrom, List.mem_cons] at h
    rcases h with h | h
    · rw [h]
    · have := ih (i + 1) m h
      omega

theorem runTimers_scheduleFrom (start : Nat) (bs : List Book) :
    ∀ (i n : Nat) (p : Page), p.timers = scheduleFrom start i bs → bs.length ≤ n →
      (runTimers n p).grid = p.grid ++ bs.map makeCard ∧ (runTimers n p).timers = [] := by
  induction bs with
  | nil =>
    intro i n p hp _
    have hp' : p.timers = [] := hp
    cases n with
    | zero => simp [runTimers, hp']
    | succ n => simp [runTimers, fireNext, hp', extractNext]
  | cons b bs ih =>
    intro i n p hp hn
    cases n with
    | zero => simp at hn
    | succ n =>
      have hx : extractNext p.timers =
          some ({ due := start + i * 90, book := b }, scheduleFrom start (i + 1) bs) := by
        rw [hp, scheduleFrom]
        apply extractNext_head
        intro m hm
        have := scheduleFrom_due start bs (i + 1) m hm
        show start + i * 90 ≤ m.due
        omega
      simp only [runTimers, fireNext, hx]
      have := ih (i + 1) n
        { p with grid := p.grid ++ [makeCard b], timers := scheduleFrom start (i + 1) bs,
                 now := max p.now (start + i * 90) } rfl (by simpa using hn)
      rw [this.1, this.2]
      simp

theorem scheduleFrom_length (now : Nat) (bs : List Book) :
    ∀ i, (scheduleFrom now i bs).length = bs.length := by
  induction bs with
  | nil => intro i; rfl
  | cons b bs ih => intro i; simp [scheduleFrom, ih]

theorem renderResults_timers (list : List Book) (p : Page) :
    (renderResults list p).timers = p.timers ++ scheduleFrom p.now 0 list ∧
    (renderResults list p).grid = [] := by
  unfold renderResults
  by_cases hl : list.length = 0
  · have : list = [] := List.length_eq_zero.mp hl
    subst this
    simp [showEmpty, renderCount, scheduleFrom]
  · simp [hl, showEmpty, renderCount]

/-- When no timer is pending, `renderResults(list)` ends, once its timers have fired,
with one card per book of `list` in the grid, in order, and no timer pending. -/
theorem settle_renderResults_quiet (list : List Book) (p : Page) (hp : p.timers = []) :
    (settle (renderResults list p)).grid = list.map makeCard ∧
    (settle (renderResults list p)).timers = [] := by
  have ht := renderResults_timers list p
  rw [hp, List.nil_append] at ht
  have := runTimers_scheduleFrom p.now list 0 (renderResults list p).timers.length
    (renderResults list p) ht.1 (by rw [ht.1, scheduleFrom_length])
  unfold settle
  rw [this.1, this.2, ht.2]
  simp

/-! ## Persistence, loading and the presentation of cards -/

theorem stringify_ne_empty (favs : List Book) : JSON.stringify favs ≠ "" := by
  intro h
  have := congrArg String.length h
  simp [JSON.stringify, String.length] at this

theorem load_persistFavs (st : Store) :
    load (persistFavs st).slot = .ok (favoritesJson st.favorites) := by
  unfold load persistFavs
  simp only [if_pos (stringify_ne_empty st.favorites)]
  exact JSON.parse_stringify st.favorites

theorem bookJson_get (b : Book) :
    (bookJson b).get "title" = some (.str b.title) ∧
    (bookJson b).get "author" = some (.str b.author) := by
  cases h : b.summary <;> simp [bookJson, Json.get, h]

theorem titleAuthorPairs_favoritesJson (favs : List Book) :
    (favoritesJson favs).titleAuthorPairs =
      some (favs.map (fun b => (some (Json.str b.title), some (Json.str b.author)))) := by
  simp [favoritesJson, Json.titleAuthorPairs, bookJson_get]

theorem mutation_persisted (m : Mutation) (st : Store) :
    ∃ st', m.apply st = persistFavs st' ∧ (m.apply st).favorites = st'.favorites := by
  cases m with
  | toggle card =>
    simp only [Mutation.apply, favBtnClick]
    split <;> exact ⟨_, rfl, rfl⟩
  | remove title author => exact ⟨_, rfl, rfl⟩
  | clear => exact ⟨_, rfl, rfl⟩

/-- C6: after every favorites mutation (a click on a card's favorite button, a remove
from the favorites list, a confirmed clear) the slot `'bookhub:favs'` holds
`JSON.stringify` of the in-memory favorites, and loading from the slot returns the array
of the same book objects, whose (title, author) reads are those of the in-memory
favorites in the same order. -/
theorem mutation_storage_in_sync (m : Mutation) (st : Store) :
    (m.apply st).slot = some (JSON.stringify (m.apply st).favorites) ∧
    load (m.apply st).slot = .ok (favoritesJson (m.apply st).favorites) ∧
    (favoritesJson (m.apply st).favorites).titleAuthorPairs =
      some ((m.apply st).favorites.map
        (fun b => (some (Json.str b.title), some (Json.str b.author)))) := by
  obtain ⟨st', h1, h2⟩ := mutation_persisted m st
  refine ⟨?_, ?_, titleAuthorPairs_favoritesJson _⟩
  · rw [h1]; rfl
  · rw [h2, h1]; exact load_persistFavs st'

/-- C5 on the code: with no entry and with the empty string in the slot, the
initialiser of `favorites` returns the empty array, but on a string that is not JSON
`JSON.parse` throws a `SyntaxError` and nothing catches it. -/
theorem load_malformed_raises :
    load none = .ok (.arr []) ∧
    load (some "") = .ok (.arr []) ∧
    load (some "not json") = .error .syntaxError ∧
    load (some "[\x7b\"title\":\"Dune\"") = .error .syntaxError :=
  ⟨rfl, rfl, rfl, rfl⟩

/-- C8 on the code: with Dune in the favorites, the card `makeCard` builds for Dune has
a favorite button without the class `'active'`; and after Dune is added through its card
and removed through the favorites list, the button of that card is still `'active'`
while Dune is no longer a favorite. -/
theorem makeCard_button_out_of_sync :
    (HasFavorite [dune] dune.title dune.author ∧ (makeCard dune).favBtnActive = false) ∧
    ((favBtnClick (makeCard dune) ⟨[], none⟩).1.favBtnActive = true ∧
      ¬ HasFavorite
        (removeFavClick "Dune" "Frank Herbert"
          (favBtnClick (makeCard dune) ⟨[], none⟩).2).favorites
        dune.title dune.author) := by
  decide

/-- C7 on the code: `renderResults([Dune, The Martian])` followed, before any of its
timers has fired, by `renderResults([Sapiens])` ends, once no timer is pending, with the
cards of Dune, Sapiens and The Martian in the grid; when the second call comes at 50 ms,
after the first timer only, the grid ends with the cards of Sapiens and The Martian. -/
theorem renderResults_stale_timers :
    ((settle (renderResults [sapiens] (renderResults [dune, theMartian] initialPage))).timers
        = [] ∧
      (settle (renderResults [sapiens] (renderResults [dune, theMartian] initialPage))).grid
        = [makeCard dune, makeCard sapiens, makeCard theMartian]) ∧
    ((settle (renderResults [sapiens]
        (advanceTo 50 (renderResults [dune, theMartian] initialPage)))).timers = [] ∧
      (settle (renderResults [sapiens]
        (advanceTo 50 (renderResults [dune, theMartian] initialPage)))).grid
        = [makeCard sapiens, makeCard theMartian]) := by
  decide

end BookVerse
